import Mathlib

/-!
Verification development for the painting-assistant pipeline.

The Python sources are shallowly embedded:
* `src/critique.py` (`ImageCritic.critique_image`): text parsing over
  `List Char`; Python `str.upper` is modelled by `Char.toUpper` per
  character (identical on ASCII, which is all the markers use).
* `src/gemini_client.py` (`GeminiImageClient.analyze_image` and
  `_extract_text_response`): the HTTP layer is abstracted to an outcome
  value (status code plus decoded body, or a raised exception).
* `src/pipeline.py` (`PaintingPipeline.generate_version` and
  `run_full_pipeline`): the network-backed generation and critique calls
  are oracles (functions from the attempt index to the values the code
  would read out of their result dicts); the loop itself is embedded
  verbatim, and the arguments of each generation call are reified into a
  trace so that claims about call arguments can be stated.
Fallible Python code (the `analysis.upper()` call that can raise
`AttributeError` on `None`) is embedded with `Except`.
-/

namespace PaintingAssistant

/-! ## String utilities (Python `in`, `split`, `find` on `List Char`) -/

/-- Python membership test helper: `pat` is a prefix of `s`. -/
def isPre : List Char → List Char → Bool
  | [], _ => true
  | _ :: _, [] => false
  | p :: ps, c :: cs => p == c && isPre ps cs

/-- Python `pat in s`: some suffix of `s` starts with `pat`. -/
def containsSub (pat : List Char) : List Char → Bool
  | [] => isPre pat []
  | c :: cs => isPre pat (c :: cs) || containsSub pat cs

/-- Python `s.split(pat)[0]` for nonempty `pat`: the prefix of `s`
strictly before the first occurrence of `pat` (all of `s` if `pat` does
not occur). -/
def splitHead (pat : List Char) : List Char → List Char
  | [] => []
  | c :: cs => if isPre pat (c :: cs) then [] else c :: splitHead pat cs

/-- Python `s.find(pat)`: index of the first occurrence, `none` if absent. -/
def findIdx (pat : List Char) : List Char → Option Nat
  | [] => if isPre pat [] then some 0 else none
  | c :: cs =>
    if isPre pat (c :: cs) then some 0
    else match findIdx pat cs with
         | some n => some (n + 1)
         | none => none

/-- Python `s.upper()` (ASCII-faithful model, per character). -/
def upperStr (s : List Char) : List Char := s.map Char.toUpper

/-- Occurrence of `pat` in `s` at index `i`. -/
def occursAtB (pat s : List Char) (i : Nat) : Bool := isPre pat (s.drop i)

/-! ## Response Evaluator (`ImageCritic.critique_image`, critique.py) -/

def PASSmark : List Char := "PASS".data
def FAILmark : List Char := "FAIL".data
def OVERALL_SCORE_LABEL : List Char := "OVERALL SCORE".data

/-- critique.py line 54:
`passed = "PASS" in analysis.upper() and "FAIL" not in analysis.upper().split("PASS")[0]`. -/
def passedOf (analysis : List Char) : Bool :=
  containsSub PASSmark (upperStr analysis) &&
    !containsSub FAILmark (splitHead PASSmark (upperStr analysis))

/-- Python whitespace class used by `\s` and `str.strip` (ASCII model). -/
def isPySpace (c : Char) : Bool :=
  c = ' ' || c = '\t' || c = '\n' || c = '\r' || Char.ofNat 11 = c || Char.ofNat 12 = c

/-- Case-insensitive literal match of `pat` at the head of `s`; returns
the remainder on success (models a case-folded literal in an IGNORECASE
regex). -/
def matchCI : List Char → List Char → Option (List Char)
  | [], s => some s
  | _ :: _, [] => none
  | p :: ps, c :: cs => if p.toUpper == c.toUpper then matchCI ps cs else none

/-- Value of a nonempty digit run, as Python `int` of the matched group. -/
def digitsVal (ds : List Char) : Nat :=
  ds.foldl (fun n c => n * 10 + (c.toNat - '0'.toNat)) 0

/-- One anchored attempt of the regex `overall\s*score[:\s]*(\d+)`
(IGNORECASE) at the head of `s`.  Because `\s`, the letters of `score`,
`[:\s]` and `\d` are pairwise incompatible at the decision points, the
backtracking regex is equivalent to this deterministic scanner. -/
def scanScoreAt (s : List Char) : Option Nat :=
  match matchCI "overall".data s with
  | none => none
  | some r1 =>
    let r2 := r1.dropWhile isPySpace
    match matchCI "score".data r2 with
    | none => none
    | some r3 =>
      let r4 := r3.dropWhile (fun c => c == ':' || isPySpace c)
      let ds := r4.takeWhile Char.isDigit
      if ds.isEmpty then none else some (digitsVal ds)

/-- Python `re.search` of the score regex: leftmost successful anchored attempt. -/
def searchScore : List Char → Option Nat
  | [] => none
  | c :: cs =>
    match scanScoreAt (c :: cs) with
    | some n => some n
    | none => searchScore cs

/-- critique.py lines 57-65: default 5; if `"OVERALL SCORE"` appears in
the uppercased text, search the regex and take the parsed integer when a
match exists. -/
def overall_score_of (analysis : List Char) : Nat :=
  if containsSub OVERALL_SCORE_LABEL (upperStr analysis) then
    match searchScore analysis with
    | some n => n
    | none => 5
  else 5

/-! ### Critical-issues extraction (critique.py lines 68-80) -/

def CRITICAL_ISSUES_LABEL : List Char := "CRITICAL ISSUES".data
def VERDICT_LABEL : List Char := "VERDICT".data

def isBulletChar (c : Char) : Bool := c = '-' || c = '•' || c = '*'

/-- The lookahead `(?=[-•*]|\n\n|$)` of the bullet regex, applied to the
rest of the text (without MULTILINE, `$` also matches just before a
final newline). -/
def bulletStop : List Char → Bool
  | [] => true
  | [c] => isBulletChar c || c = '\n'
  | c :: c2 :: _ => isBulletChar c || (c = '\n' && c2 = '\n')

/-- Lazy `(.+?)` with DOTALL up to the lookahead: shortest nonempty
prefix whose remainder satisfies `bulletStop`; always succeeds on
nonempty input because the end of the text satisfies the lookahead. -/
def grabContent : List Char → Option (List Char × List Char)
  | [] => none
  | c :: rest =>
    if bulletStop rest then some ([c], rest)
    else
      match grabContent rest with
      | some (g, r) => some (c :: g, r)
      | none => none

theorem grabContent_length : ∀ s g r, grabContent s = some (g, r) → r.length < s.length := by
  intro s
  induction s with
  | nil => intro g r h; simp [grabContent] at h
  | cons c rest ih =>
    intro g r h
    simp only [grabContent] at h
    by_cases hb : bulletStop rest
    · rw [if_pos hb] at h
      simp only [Option.some.injEq, Prod.mk.injEq] at h
      obtain ⟨-, h2⟩ := h
      subst h2
      simp only [List.length_cons]
      omega
    · rw [if_neg hb] at h
      cases hg : grabContent rest with
      | none => rw [hg] at h; exact absurd h (by simp)
      | some p =>
        obtain ⟨g0, r0⟩ := p
        rw [hg] at h
        simp only [Option.some.injEq, Prod.mk.injEq] at h
        obtain ⟨-, h2⟩ := h
        subst h2
        have := ih g0 r0 hg
        simp only [List.length_cons]
        omega

/-- Match of `\s*(.+?)(?=...)` after a bullet character: greedy `\s*`
takes the whole whitespace run (so the content starts at
`s.dropWhile isPySpace`); when that run is the entire remainder, the
engine backtracks one whitespace character to feed `(.+?)`. -/
def matchAfterBullet (s : List Char) : Option (List Char × List Char) :=
  if s.isEmpty then none
  else if (s.dropWhile isPySpace).isEmpty then
    match s.reverse with
    | last :: _ => some ([last], [])
    | [] => none
  else grabContent (s.dropWhile isPySpace)

theorem matchAfterBullet_length {s : List Char} {g r : List Char}
    (h : matchAfterBullet s = some (g, r)) : r.length < s.length := by
  unfold matchAfterBullet at h
  by_cases hs : s.isEmpty
  · rw [if_pos hs] at h; exact absurd h (by simp)
  · rw [if_neg hs] at h
    by_cases hrem : (s.dropWhile isPySpace).isEmpty
    · rw [if_pos hrem] at h
      cases hrv : s.reverse with
      | nil => rw [hrv] at h; exact absurd h (by simp)
      | cons last tl =>
        rw [hrv] at h
        simp only [Option.some.injEq, Prod.mk.injEq] at h
        obtain ⟨-, h2⟩ := h
        subst h2
        simp only [List.length_nil]
        cases s with
        | nil => simp at hs
        | cons a as => simp only [List.length_cons]; omega
    · rw [if_neg hrem] at h
      have h1 := grabContent_length _ g r h
      have h2 : (s.dropWhile isPySpace).length ≤ s.length :=
        (List.dropWhile_sublist _).length_le
      omega

/-- Python `re.findall` of the bullet-item regex over the issues span: scan left
to right; at each bullet character attempt the match; on success emit the
group and resume after the match. -/
def findBullets : List Char → List (List Char)
  | [] => []
  | c :: cs =>
    if isBulletChar c then
      match hm : matchAfterBullet cs with
      | some (g, rest) =>
        have : rest.length < cs.length := matchAfterBullet_length hm
        g :: findBullets rest
      | none => findBullets cs
    else findBullets cs
  termination_by s => s.length
  decreasing_by
    · simp [List.length_cons]; omega
    · simp [List.length_cons]
    · simp [List.length_cons]

/-- Python `item.strip()` (ASCII whitespace model). -/
def stripStr (s : List Char) : List Char :=
  ((s.dropWhile isPySpace).reverse.dropWhile isPySpace).reverse

/-- critique.py lines 68-80: locate the `CRITICAL ISSUES ... VERDICT`
span and extract the trimmed, nonempty bullet items. -/
def issues_of (analysis : List Char) : List (List Char) :=
  if containsSub CRITICAL_ISSUES_LABEL (upperStr analysis) then
    match findIdx CRITICAL_ISSUES_LABEL (upperStr analysis) with
    | none => []  -- unreachable: the guard above implies the label is found
    | some start =>
      let stop :=
        match findIdx VERDICT_LABEL ((upperStr analysis).drop start) with
        | some k => start + k
        | none => analysis.length
      let issuesText := (analysis.drop start).take (stop - start)
      ((findBullets issuesText).map stripStr).filter (fun x => !x.isEmpty)
  else []

/-! ### The evaluator as a (fallible) function on the analyze result -/

/-- Result dict of `GeminiImageClient.analyze_image`. -/
structure AnalyzeResult where
  success : Bool
  analysis : Option (List Char)
  error : Option (List Char)
deriving DecidableEq

/-- Exceptions the embedded code can raise. -/
inductive PyError where
  | attributeError
deriving DecidableEq

/-- Verdict dict returned by `ImageCritic.critique_image`. -/
structure Verdict where
  success : Bool
  passed : Bool
  overall_score : Nat
  critique : Option (List Char)
  issues : List (List Char)
  suggestions : List (List Char)
  error : Option (List Char)
deriving DecidableEq

def FAILED_TO_ANALYZE : List Char := "Failed to analyze image".data

/-- critique.py lines 37-90, as a function of the analyze-port result.
On `success = false` the default-filled failure verdict is returned; on
`success = true` the code immediately evaluates `analysis.upper()`, which
raises `AttributeError` when `analysis` is `None`. -/
def critique_image (result : AnalyzeResult) : Except PyError Verdict :=
  if result.success = false then
    Except.ok
      { success := false, passed := false, overall_score := 0, critique := none,
        issues := [FAILED_TO_ANALYZE], suggestions := [], error := result.error }
  else
    match result.analysis with
    | none => Except.error PyError.attributeError
    | some analysis =>
      Except.ok
        { success := true, passed := passedOf analysis,
          overall_score := overall_score_of analysis, critique := some analysis,
          issues := issues_of analysis, suggestions := [], error := none }

/-! ## Image Analysis Port (`GeminiImageClient.analyze_image`, gemini_client.py)

The HTTP layer is abstracted to an `HttpOutcome`; the response body is
modelled with exactly the fields `_extract_text_response` reads (a part
with no `text` key, such as an inline-data part, is a `text := none`
part). -/

structure ResponsePart where
  text : Option (List Char)
deriving DecidableEq

structure ResponseCandidate where
  parts : List ResponsePart
deriving DecidableEq

structure ResponseData where
  candidates : List ResponseCandidate
deriving DecidableEq

/-- Python `"\n".join`. -/
def joinNewline : List (List Char) → List Char
  | [] => []
  | [t] => t
  | t :: ts => t ++ '\n' :: joinNewline ts

/-- gemini_client.py lines 70-86: first candidate, collect the `text`
fields of its parts, join with newlines; `None` when there is no
candidate or no text part. -/
def extract_text_response (r : ResponseData) : Option (List Char) :=
  match r.candidates with
  | [] => none
  | c :: _ =>
    let text_parts := c.parts.filterMap (fun p => p.text)
    if text_parts.isEmpty then none else some (joinNewline text_parts)

/-- Outcome of the `requests.post` call: a decoded response with its
status code and raw body text, or a raised exception. -/
inductive HttpOutcome where
  | response (status : Nat) (body : ResponseData) (bodyText : List Char)
  | raised (message : List Char)

def apiErrorMessage (status : Nat) (bodyText : List Char) : List Char :=
  "API error ".data ++ (Nat.repr status).data ++ ": ".data ++ bodyText

/-- gemini_client.py lines 244-273: non-200 statuses and exceptions give
a failure dict; a 200 response gives `success = True` with whatever
`_extract_text_response` found (possibly `None`). -/
def analyze_image (h : HttpOutcome) : AnalyzeResult :=
  match h with
  | .raised msg => ⟨false, none, some msg⟩
  | .response status body bodyText =>
    if status ≠ 200 then ⟨false, none, some (apiErrorMessage status bodyText)⟩
    else ⟨true, extract_text_response body, none⟩

/-! ## Version Orchestrator (`PaintingPipeline.generate_version`, pipeline.py)

The generation call and the critique call are oracles indexed by the
attempt number: `AttemptEnv.gen i` is what the code reads out of the
`generate_image` result dict on attempt `i`, `AttemptEnv.crit i` what it
reads out of the critique dict.  Each generation call is also recorded
in a trace (`GenCall`) carrying the arguments the claims reason about. -/

def MAX_ITERATIONS_PER_VERSION : Nat := 3
def MIN_SCORE_TO_PASS : Nat := 7
def NUM_VERSIONS : Nat := 5

structure GenOut where
  success : Bool
  thought_signature : Option (List Char)
  error : List Char
deriving DecidableEq

structure CritOut where
  passed : Bool
  overall_score : Nat
  issues : List (List Char)
  critique : List Char
deriving DecidableEq

structure AttemptEnv where
  gen : Nat → GenOut
  crit : Nat → CritOut

structure VersionParams where
  input_image_path : List Char
  version : Nat
  session_dir : List Char
  previous_image_path : Option (List Char)
  thought_signature : Option (List Char)

/-- Arguments of one `generate_image` call: the reference image, the
continuity token passed as `previous_thought_signature`, and the issues
appended to the prompt when the retry prompt was used (`none` means the
base prompt of the version was used). -/
structure GenCall where
  reference_image_path : List Char
  previous_thought_signature : Option (List Char)
  retry_issues : Option (List (List Char))
deriving DecidableEq

structure AttemptRecord where
  iteration : Nat
  success : Bool
  image_path : Option (List Char)
  score : Nat
  passed : Bool
  issues : List (List Char)
  critique : Option (List Char)
  thought_signature : Option (List Char)
  error : Option (List Char)
deriving DecidableEq

structure VersionResult where
  success : Bool
  image_path : Option (List Char)
  thought_signature : Option (List Char)
  attempts : Nat
  final_score : Nat
  passed : Bool
deriving DecidableEq

structure LoopState where
  attempts : List AttemptRecord
  best_result : Option AttemptRecord
  best_score : Nat
  calls : List GenCall
deriving DecidableEq

/-- Python `f"\x7bv:02d\x7d"` for nonnegative `v`. -/
def pad2 (v : Nat) : List Char :=
  if v < 10 then '0' :: (Nat.repr v).data else (Nat.repr v).data

/-- pipeline.py line 77: `session_dir / f"v..._attempt....png"`. -/
def attemptPath (p : VersionParams) (iteration : Nat) : List Char :=
  p.session_dir ++ ('/' :: 'v' :: pad2 p.version) ++ "_attempt".data
    ++ (Nat.repr (iteration + 1)).data ++ ".png".data

/-- pipeline.py line 148: `session_dir / f"v..._final.png"`. -/
def finalPath (p : VersionParams) : List Char :=
  p.session_dir ++ ('/' :: 'v' :: pad2 p.version) ++ "_final.png".data

def GENERATION_FAILED : List Char := "Generation failed".data

/-- pipeline.py lines 68-81: prompt selection (base prompt, or retry
prompt with the previous attempt's issues) and reference choice, reified
as the argument record of the generation call. -/
def stepCall (p : VersionParams) (iteration : Nat) (st : LoopState) : GenCall :=
  let is_retry := decide (0 < iteration)
  let previous_issues :=
    if is_retry && !st.attempts.isEmpty then
      match st.attempts.getLast? with
      | some r => r.issues
      | none => []
    else []
  { reference_image_path :=
      match p.previous_image_path with
      | some r => r
      | none => p.input_image_path,
    previous_thought_signature := p.thought_signature,
    retry_issues :=
      if is_retry && !previous_issues.isEmpty then some previous_issues else none }

/-- pipeline.py lines 94-100: the attempt record of a failed generation. -/
def failRecord (iteration : Nat) (g : GenOut) : AttemptRecord :=
  ⟨iteration + 1, false, none, 0, false, [GENERATION_FAILED], none, none,
    some g.error⟩

/-- pipeline.py lines 118-127: the attempt record of a generated and
critiqued image. -/
def succRecord (p : VersionParams) (iteration : Nat) (g : GenOut) (c : CritOut) :
    AttemptRecord :=
  ⟨iteration + 1, true, some (attemptPath p iteration), c.overall_score, c.passed,
    c.issues, some c.critique, g.thought_signature, none⟩

/-- One iteration of the loop in pipeline.py lines 64-143: build the
prompt, choose the reference, call the generation port, and on success
critique, record, track the best, and decide whether to break (the
returned boolean). -/
def attemptStep (p : VersionParams) (env : AttemptEnv) (iteration : Nat)
    (st : LoopState) : LoopState × Bool :=
  let call := stepCall p iteration st
  let gen_result := env.gen iteration
  if gen_result.success = false then
    ({ attempts := st.attempts ++ [failRecord iteration gen_result],
       best_result := st.best_result, best_score := st.best_score,
       calls := st.calls ++ [call] }, false)
  else
    let critique_result := env.crit iteration
    let score := critique_result.overall_score
    let passed := critique_result.passed
    let attempt_record := succRecord p iteration gen_result critique_result
    let best :=
      if st.best_score < score then (some attempt_record, score)
      else (st.best_result, st.best_score)
    ({ attempts := st.attempts ++ [attempt_record],
       best_result := best.1, best_score := best.2,
       calls := st.calls ++ [call] },
     passed && decide (MIN_SCORE_TO_PASS ≤ score))

/-- The `for iteration in range(MAX_ITERATIONS_PER_VERSION)` loop with
its early `break`. -/
def attemptLoop (p : VersionParams) (env : AttemptEnv) :
    List Nat → LoopState → LoopState
  | [], st => st
  | i :: rest, st =>
    let step := attemptStep p env i st
    if step.2 then step.1 else attemptLoop p env rest step.1

structure VersionOutcome where
  result : VersionResult
  attempts : List AttemptRecord
  calls : List GenCall
deriving DecidableEq

/-- pipeline.py lines 40-170 (`generate_version`): run the attempt loop
and finalize — when a best attempt exists its image is renamed to the
canonical final path and its fields populate the version result. -/
def generate_version (p : VersionParams) (env : AttemptEnv) : VersionOutcome :=
  let st := attemptLoop p env (List.range MAX_ITERATIONS_PER_VERSION) ⟨[], none, 0, []⟩
  match st.best_result with
  | some best =>
    { result := ⟨true, some (finalPath p), best.thought_signature,
        st.attempts.length, st.best_score, best.passed⟩,
      attempts := st.attempts, calls := st.calls }
  | none =>
    { result := ⟨false, none, none, st.attempts.length, 0, false⟩,
      attempts := st.attempts, calls := st.calls }

/-! ## Session Orchestrator (`PaintingPipeline.run_full_pipeline`) -/

structure SessionEnv where
  gen : Nat → Nat → GenOut
  crit : Nat → Nat → CritOut

def envFor (e : SessionEnv) (v : Nat) : AttemptEnv := ⟨e.gen v, e.crit v⟩

/-- Name field `PROMPTS[v]["name"]` for the five defined versions. -/
def promptName : Nat → List Char
  | 1 => "Block-in".data
  | 2 => "Form & Edges".data
  | 3 => "Development".data
  | 4 => "Atmosphere".data
  | 5 => "Final".data
  | _ => []

/-- One entry of `results["versions"]`, extended with the previous-state
inputs the version was invoked with (reifying lines 216-222). -/
structure SessionStep where
  version : Nat
  name : List Char
  prev_image : Option (List Char)
  prev_token : Option (List Char)
  result : VersionResult
deriving DecidableEq

/-- pipeline.py lines 211-234: the sequential fold over versions; the
previous-image and token accumulators are updated only from successful
version results. -/
def runVersions (input_image_path session_dir : List Char) (e : SessionEnv) :
    List Nat → Option (List Char) → Option (List Char) → List SessionStep
  | [], _, _ => []
  | v :: vs, prev_image, prev_token =>
    let o := generate_version
      ⟨input_image_path, v, session_dir, prev_image, prev_token⟩ (envFor e v)
    let step : SessionStep := ⟨v, promptName v, prev_image, prev_token, o.result⟩
    if o.result.success then
      step :: runVersions input_image_path session_dir e vs
        o.result.image_path o.result.thought_signature
    else
      step :: runVersions input_image_path session_dir e vs prev_image prev_token

/-- Python `round` to an integer with ties to even, over an exact-rational
idealization of the float arithmetic (the session averages are sums of
integer scores divided by the version count, where this idealization and
the float computation agree). -/
def pyRoundInt (q : ℚ) : ℤ :=
  if q - Int.floor q < 1/2 then Int.floor q
  else if 1/2 < q - Int.floor q then Int.floor q + 1
  else if Int.floor q % 2 = 0 then Int.floor q else Int.floor q + 1

/-- Python `round(q, 1)`. -/
def pyRound1 (q : ℚ) : ℚ := (pyRoundInt (10 * q) : ℚ) / 10

structure SessionSummary where
  versions_passed : Nat
  versions_total : Nat
  average_score : ℚ
  total_attempts : Nat
deriving DecidableEq

structure SessionResult where
  success : Bool
  versions : List SessionStep
  summary : SessionSummary
deriving DecidableEq

/-- pipeline.py lines 172-259 (`run_full_pipeline`): run versions 1..N
sequentially and aggregate the summary of lines 236-245.  `NUM_VERSIONS`
is taken as an explicit parameter (the source reads the module constant,
which is 5); the filesystem side (session directory naming, copying the
input, writing results.json) is out of the embedded core, so the session
directory is a parameter. -/
def run_full_pipeline (numVersions : Nat) (input_image_path session_dir : List Char)
    (e : SessionEnv) : SessionResult :=
  let steps := runVersions input_image_path session_dir e
    (List.range' 1 numVersions) none none
  let passed_count := (steps.filter (fun s => s.result.passed)).length
  let avg_score : ℚ :=
    ((steps.map (fun s => s.result.final_score)).sum : ℚ) / (numVersions : ℚ)
  { success := true,
    versions := steps,
    summary := ⟨passed_count, numVersions, pyRound1 avg_score,
      (steps.map (fun s => s.result.attempts)).sum⟩ }

/-! ## Lemmas about the string scanners -/

theorem isPre_nil_iff (pat : List Char) : isPre pat [] = true ↔ pat = [] := by
  cases pat <;> simp [isPre]

theorem containsSub_iff_exists (pat s : List Char) :
    containsSub pat s = true ↔ ∃ i, occursAtB pat s i = true := by
  induction s with
  | nil =>
    simp only [containsSub, occursAtB, List.drop_nil]
    exact ⟨fun h => ⟨0, h⟩, fun ⟨i, h⟩ => h⟩
  | cons c cs ih =>
    simp only [containsSub, Bool.or_eq_true, ih]
    constructor
    · rintro (h | ⟨j, hj⟩)
      · exact ⟨0, h⟩
      · exact ⟨j + 1, hj⟩
    · rintro ⟨i, hi⟩
      cases i with
      | zero => exact Or.inl hi
      | succ j => exact Or.inr ⟨j, hi⟩

theorem splitHead_of_first (pat s : List Char) (p : Nat)
    (h1 : occursAtB pat s p = true)
    (h2 : ∀ q, q < p → occursAtB pat s q = false) :
    splitHead pat s = s.take p := by
  induction s generalizing p with
  | nil => simp [splitHead]
  | cons c cs ih =>
    by_cases hc : isPre pat (c :: cs) = true
    · have hp : p = 0 := by
        by_contra hne
        have := h2 0 (Nat.pos_of_ne_zero hne)
        simp only [occursAtB, List.drop_zero] at this
        rw [this] at hc
        exact Bool.false_ne_true hc
      subst hp
      simp [splitHead, hc]
    · have hcb : isPre pat (c :: cs) = false := by
        cases hb : isPre pat (c :: cs)
        · rfl
        · exact absurd hb hc
      cases p with
      | zero =>
        simp only [occursAtB, List.drop_zero] at h1
        exact absurd h1 hc
      | succ q =>
        have h1' : occursAtB pat cs q = true := by
          simpa [occursAtB] using h1
        have h2' : ∀ q', q' < q → occursAtB pat cs q' = false := by
          intro q' hq'
          have := h2 (q' + 1) (by omega)
          simpa [occursAtB] using this
        simp only [splitHead, hcb, if_neg, Bool.false_eq_true, ite_false,
          List.take_succ_cons]
        exact congrArg (c :: ·) (ih q h1' h2')

theorem isPre_take_iff (pat : List Char) : ∀ (s : List Char) (n : Nat),
    isPre pat (s.take n) = true ↔ isPre pat s = true ∧ pat.length ≤ n := by
  induction pat with
  | nil => intro s n; simp [isPre]
  | cons p ps ih =>
    intro s n
    cases s with
    | nil =>
      simp only [List.take_nil]
      simp [isPre]
    | cons c cs =>
      cases n with
      | zero => simp [isPre]
      | succ m =>
        simp only [List.take_succ_cons, isPre, Bool.and_eq_true, ih cs m,
          List.length_cons]
        constructor
        · rintro ⟨hpc, hrest, hlen⟩
          exact ⟨⟨hpc, hrest⟩, by omega⟩
        · rintro ⟨⟨hpc, hrest⟩, hlen⟩
          exact ⟨hpc, hrest, by omega⟩

theorem occursAtB_take_iff (pat s : List Char) (n j : Nat) (hpat : pat ≠ []) :
    occursAtB pat (s.take n) j = true ↔
      occursAtB pat s j = true ∧ j + pat.length ≤ n := by
  simp only [occursAtB, List.drop_take, isPre_take_iff]
  have hlen : 0 < pat.length := List.length_pos.mpr hpat
  constructor
  · rintro ⟨h1, h2⟩
    exact ⟨h1, by omega⟩
  · rintro ⟨h1, h2⟩
    exact ⟨h1, by omega⟩

/-- The specification-side verdict policy, stated positionally on the
uppercased text: some first occurrence of the PASS marker exists, and no
FAIL marker occurrence lies entirely before it. -/
def SpecVerdictPass (analysis : List Char) : Prop :=
  ∃ p, occursAtB PASSmark (upperStr analysis) p = true ∧
    (∀ q, q < p → occursAtB PASSmark (upperStr analysis) q = false) ∧
    ¬ ∃ j, occursAtB FAILmark (upperStr analysis) j = true ∧
      j + FAILmark.length ≤ p

theorem passedOf_iff_specVerdictPass (analysis : List Char) :
    passedOf analysis = true ↔ SpecVerdictPass analysis := by
  unfold passedOf SpecVerdictPass
  set u := upperStr analysis with hu
  rw [Bool.and_eq_true, Bool.not_eq_true']
  constructor
  · rintro ⟨hpass, hfail⟩
    have hex : ∃ i, occursAtB PASSmark u i = true :=
      (containsSub_iff_exists _ _).mp hpass
    refine ⟨Nat.find hex, Nat.find_spec hex, ?_, ?_⟩
    · intro q hq
      have := Nat.find_min hex hq
      exact Bool.eq_false_iff.mpr this
    · rintro ⟨j, hj, hjp⟩
      have hsplit : splitHead PASSmark u = u.take (Nat.find hex) :=
        splitHead_of_first _ _ _ (Nat.find_spec hex)
          (fun q hq => Bool.eq_false_iff.mpr (Nat.find_min hex hq))
      rw [hsplit] at hfail
      have : occursAtB FAILmark (u.take (Nat.find hex)) j = true :=
        (occursAtB_take_iff _ _ _ _ (by decide)).mpr ⟨hj, hjp⟩
      have : containsSub FAILmark (u.take (Nat.find hex)) = true :=
        (containsSub_iff_exists _ _).mpr ⟨j, this⟩
      rw [this] at hfail
      exact Bool.noConfusion hfail
  · rintro ⟨p, hp, hmin, hnofail⟩
    have hpass : containsSub PASSmark u = true :=
      (containsSub_iff_exists _ _).mpr ⟨p, hp⟩
    refine ⟨hpass, ?_⟩
    have hsplit : splitHead PASSmark u = u.take p :=
      splitHead_of_first _ _ _ hp hmin
    rw [hsplit]
    cases hcf : containsSub FAILmark (u.take p) with
    | false => rfl
    | true =>
      obtain ⟨j, hj⟩ := (containsSub_iff_exists _ _).mp hcf
      obtain ⟨hj1, hj2⟩ := (occursAtB_take_iff _ _ _ _ (by decide)).mp hj
      exact absurd ⟨j, hj1, hj2⟩ hnofail

/-! ## Lemmas about the attempt loop -/

/-- The break condition of pipeline.py line 136 as read off an attempt
record: only an attempt with a generated image can stop the loop, when
its verdict passed with at least the minimum score. -/
def stopOf (r : AttemptRecord) : Bool :=
  r.success && r.passed && decide (MIN_SCORE_TO_PASS ≤ r.score)

def maxScore (l : List AttemptRecord) : Nat :=
  l.foldl (fun m r => max m r.score) 0

theorem foldl_max_init_le : ∀ (l : List AttemptRecord) (init : Nat),
    init ≤ l.foldl (fun m r => max m r.score) init := by
  intro l
  induction l with
  | nil => intro init; simp
  | cons x xs ih =>
    intro init
    calc init ≤ max init x.score := Nat.le_max_left _ _
    _ ≤ _ := ih _

theorem foldl_max_mem_le : ∀ (l : List AttemptRecord) (init : Nat) (r : AttemptRecord),
    r ∈ l → r.score ≤ l.foldl (fun m r => max m r.score) init := by
  intro l
  induction l with
  | nil => intro _ r h; exact absurd h (List.not_mem_nil r)
  | cons x xs ih =>
    intro init r h
    rcases List.mem_cons.mp h with h | h
    · subst h
      calc r.score ≤ max init r.score := Nat.le_max_right _ _
      _ ≤ _ := foldl_max_init_le _ _
    · exact ih _ r h

theorem le_maxScore_of_mem {l : List AttemptRecord} {r : AttemptRecord}
    (h : r ∈ l) : r.score ≤ maxScore l := foldl_max_mem_le l 0 r h

theorem maxScore_append_single (l : List AttemptRecord) (r : AttemptRecord) :
    maxScore (l ++ [r]) = max (maxScore l) r.score := by
  unfold maxScore
  rw [List.foldl_append]
  rfl

/-- Invariant of the loop state tying the best-so-far tracking of
pipeline.py lines 130-133 to the recorded attempts: the running best
score is the maximum recorded score, no best exists while that maximum
is zero, and otherwise the best record is the first record attaining the
maximum (strict-improvement updates keep the earliest maximum). -/
def LoopInv (st : LoopState) : Prop :=
  st.best_score = maxScore st.attempts ∧
  (st.best_score = 0 → st.best_result = none) ∧
  (0 < st.best_score → ∃ b, st.best_result = some b ∧
    st.attempts.find? (fun r => r.score == st.best_score) = some b) ∧
  (∀ r ∈ st.attempts, r.success = false → r.score = 0) ∧
  (∀ r ∈ st.attempts, r.success = true → r.image_path.isSome = true)

/-- Reduction of one step when the generation call fails. -/
theorem attemptStep_eq_fail (p : VersionParams) (env : AttemptEnv) (i : Nat)
    (st : LoopState) (hg : (env.gen i).success = false) :
    attemptStep p env i st =
      ({ attempts := st.attempts ++ [failRecord i (env.gen i)],
         best_result := st.best_result, best_score := st.best_score,
         calls := st.calls ++ [stepCall p i st] }, false) := by
  simp [attemptStep, hg]

/-- Reduction of one step when the generation call succeeds. -/
theorem attemptStep_eq_succ (p : VersionParams) (env : AttemptEnv) (i : Nat)
    (st : LoopState) (hg : (env.gen i).success = true) :
    attemptStep p env i st =
      ({ attempts := st.attempts ++ [succRecord p i (env.gen i) (env.crit i)],
         best_result :=
           if st.best_score < (env.crit i).overall_score then
             some (succRecord p i (env.gen i) (env.crit i))
           else st.best_result,
         best_score :=
           if st.best_score < (env.crit i).overall_score then
             (env.crit i).overall_score
           else st.best_score,
         calls := st.calls ++ [stepCall p i st] },
       (env.crit i).passed &&
         decide (MIN_SCORE_TO_PASS ≤ (env.crit i).overall_score)) := by
  by_cases hlt : st.best_score < (env.crit i).overall_score <;>
    simp [attemptStep, hg, hlt]

/-- One step appends exactly one attempt record and one generation call;
the returned break flag is `stopOf` of the new record; the call always
passes the version-level continuity token. -/
theorem attemptStep_char (p : VersionParams) (env : AttemptEnv) (i : Nat)
    (st : LoopState) :
    ∃ rec call,
      (attemptStep p env i st).1.attempts = st.attempts ++ [rec] ∧
      (attemptStep p env i st).1.calls = st.calls ++ [call] ∧
      (attemptStep p env i st).2 = stopOf rec ∧
      call.previous_thought_signature = p.thought_signature ∧
      (rec.success = false → rec.score = 0) ∧
      (rec.success = true → rec.image_path.isSome = true) := by
  cases hg : (env.gen i).success
  · refine ⟨failRecord i (env.gen i), stepCall p i st, ?_⟩
    rw [attemptStep_eq_fail p env i st hg]
    refine ⟨rfl, rfl, ?_, rfl, fun _ => rfl, ?_⟩
    · simp [stopOf, failRecord]
    · intro hs
      exact absurd hs (by simp [failRecord])
  · refine ⟨succRecord p i (env.gen i) (env.crit i), stepCall p i st, ?_⟩
    rw [attemptStep_eq_succ p env i st hg]
    refine ⟨rfl, rfl, ?_, rfl, ?_, fun _ => rfl⟩
    · simp [stopOf, succRecord]
    · intro hs
      exact absurd hs (by simp [succRecord])

/-- One step preserves the best-tracking invariant. -/
theorem attemptStep_inv (p : VersionParams) (env : AttemptEnv) (i : Nat)
    (st : LoopState) (h : LoopInv st) : LoopInv (attemptStep p env i st).1 := by
  obtain ⟨hmax, hzero, hpos, hfail, himg⟩ := h
  cases hg : (env.gen i).success
  · rw [attemptStep_eq_fail p env i st hg]
    refine ⟨?_, hzero, ?_, ?_, ?_⟩
    · simp only [maxScore_append_single]
      simp [failRecord, ← hmax]
    · intro h0
      obtain ⟨b, hb, hfind⟩ := hpos h0
      refine ⟨b, hb, ?_⟩
      rw [List.find?_append, hfind]
      rfl
    · intro r hr
      rcases List.mem_append.mp hr with hr | hr
      · exact hfail r hr
      · intro _
        simp only [List.mem_singleton] at hr
        subst hr
        rfl
    · intro r hr
      rcases List.mem_append.mp hr with hr | hr
      · exact himg r hr
      · intro hs
        simp only [List.mem_singleton] at hr
        subst hr
        exact absurd hs (by simp [failRecord])
  · rw [attemptStep_eq_succ p env i st hg]
    have hrecscore : (succRecord p i (env.gen i) (env.crit i)).score =
        (env.crit i).overall_score := rfl
    by_cases hlt : st.best_score < (env.crit i).overall_score
    · refine ⟨?_, ?_, ?_, ?_, ?_⟩
      · simp only [if_pos hlt, maxScore_append_single, hrecscore, ← hmax]
        omega
      · intro h0
        simp only [if_pos hlt] at h0
        omega
      · intro _
        simp only [if_pos hlt]
        refine ⟨succRecord p i (env.gen i) (env.crit i), rfl, ?_⟩
        rw [List.find?_append]
        have hnone : st.attempts.find?
            (fun r => r.score == (env.crit i).overall_score) = none := by
          rw [List.find?_eq_none]
          intro r hr hbeq
          have hle : r.score ≤ st.best_score := hmax ▸ le_maxScore_of_mem hr
          have heq : r.score = (env.crit i).overall_score := by
            simpa using hbeq
          omega
        rw [hnone]
        simp [List.find?, hrecscore]
      · intro r hr
        rcases List.mem_append.mp hr with hr | hr
        · exact hfail r hr
        · intro hs
          simp only [List.mem_singleton] at hr
          subst hr
          exact absurd hs (by simp [succRecord])
      · intro r hr
        rcases List.mem_append.mp hr with hr | hr
        · exact himg r hr
        · intro _
          simp only [List.mem_singleton] at hr
          subst hr
          simp [succRecord]
    · refine ⟨?_, ?_, ?_, ?_, ?_⟩
      · simp only [if_neg hlt, maxScore_append_single, hrecscore, ← hmax]
        omega
      · intro h0
        simp only [if_neg hlt] at h0 ⊢
        exact hzero h0
      · intro h0
        simp only [if_neg hlt] at h0 ⊢
        obtain ⟨b, hb, hfind⟩ := hpos h0
        refine ⟨b, hb, ?_⟩
        rw [List.find?_append, hfind]
        rfl
      · intro r hr
        rcases List.mem_append.mp hr with hr | hr
        · exact hfail r hr
        · intro hs
          simp only [List.mem_singleton] at hr
          subst hr
          exact absurd hs (by simp [succRecord])
      · intro r hr
        rcases List.mem_append.mp hr with hr | hr
        · exact himg r hr
        · intro _
          simp only [List.mem_singleton] at hr
          subst hr
          simp [succRecord]

/-- The loop only appends records: at most one per remaining iteration. -/
theorem attemptLoop_attempts_ext (p : VersionParams) (env : AttemptEnv) :
    ∀ (rs : List Nat) (st : LoopState), ∃ ext,
      (attemptLoop p env rs st).attempts = st.attempts ++ ext ∧
      ext.length ≤ rs.length := by
  intro rs
  induction rs with
  | nil => intro st; exact ⟨[], by simp [attemptLoop]⟩
  | cons i rest ih =>
    intro st
    obtain ⟨rec, call, ha, hc, hb, htok, hf, hi⟩ := attemptStep_char p env i st
    simp only [attemptLoop]
    cases hbrk : (attemptStep p env i st).2
    · rw [if_neg (by simp)]
      obtain ⟨ext, hext, hlen⟩ := ih (attemptStep p env i st).1
      refine ⟨[rec] ++ ext, ?_, ?_⟩
      · rw [hext, ha, List.append_assoc]
      · simp only [List.length_append, List.length_cons, List.length_nil]
        omega
    · rw [if_pos rfl]
      refine ⟨[rec], ha, by simp⟩

/-- The loop records at most one generation call per remaining iteration. -/
theorem attemptLoop_calls_ext (p : VersionParams) (env : AttemptEnv) :
    ∀ (rs : List Nat) (st : LoopState), ∃ ext,
      (attemptLoop p env rs st).calls = st.calls ++ ext ∧
      ext.length ≤ rs.length := by
  intro rs
  induction rs with
  | nil => intro st; exact ⟨[], by simp [attemptLoop]⟩
  | cons i rest ih =>
    intro st
    obtain ⟨rec, call, ha, hc, hb, htok, hf, hi⟩ := attemptStep_char p env i st
    simp only [attemptLoop]
    cases hbrk : (attemptStep p env i st).2
    · rw [if_neg (by simp)]
      obtain ⟨ext, hext, hlen⟩ := ih (attemptStep p env i st).1
      refine ⟨[call] ++ ext, ?_, ?_⟩
      · rw [hext, hc, List.append_assoc]
      · simp only [List.length_append, List.length_cons, List.length_nil]
        omega
    · rw [if_pos rfl]
      refine ⟨[call], hc, by simp⟩

/-- Every generation call of the loop carries the version-level
continuity token. -/
theorem attemptLoop_calls_token (p : VersionParams) (env : AttemptEnv) :
    ∀ (rs : List Nat) (st : LoopState),
      (∀ c ∈ st.calls, c.previous_thought_signature = p.thought_signature) →
      ∀ c ∈ (attemptLoop p env rs st).calls,
        c.previous_thought_signature = p.thought_signature := by
  intro rs
  induction rs with
  | nil => intro st h; simpa [attemptLoop] using h
  | cons i rest ih =>
    intro st h
    obtain ⟨rec, call, ha, hc, hb, htok, hf, hi⟩ := attemptStep_char p env i st
    have hstep : ∀ c ∈ (attemptStep p env i st).1.calls,
        c.previous_thought_signature = p.thought_signature := by
      intro c hcm
      rw [hc] at hcm
      rcases List.mem_append.mp hcm with hcm | hcm
      · exact h c hcm
      · simp only [List.mem_singleton] at hcm
        subst hcm
        exact htok
    simp only [attemptLoop]
    cases hbrk : (attemptStep p env i st).2
    · rw [if_neg (by simp)]
      exact ih _ hstep
    · rw [if_pos rfl]
      exact hstep

/-- The loop preserves the best-tracking invariant. -/
theorem attemptLoop_inv (p : VersionParams) (env : AttemptEnv) :
    ∀ (rs : List Nat) (st : LoopState), LoopInv st →
      LoopInv (attemptLoop p env rs st) := by
  intro rs
  induction rs with
  | nil => intro st h; simpa [attemptLoop] using h
  | cons i rest ih =>
    intro st h
    simp only [attemptLoop]
    cases hbrk : (attemptStep p env i st).2
    · rw [if_neg (by simp)]
      exact ih _ (attemptStep_inv p env i st h)
    · rw [if_pos rfl]
      exact attemptStep_inv p env i st h

/-- A nonempty remainder always executes at least one more attempt. -/
theorem attemptLoop_progress (p : VersionParams) (env : AttemptEnv) :
    ∀ (rs : List Nat) (st : LoopState), rs ≠ [] →
      st.attempts.length + 1 ≤ (attemptLoop p env rs st).attempts.length := by
  intro rs
  cases rs with
  | nil => intro st h; exact absurd rfl h
  | cons i rest =>
    intro st _
    obtain ⟨rec, call, ha, hc, hb, htok, hf, hi⟩ := attemptStep_char p env i st
    have hlen : (attemptStep p env i st).1.attempts.length =
        st.attempts.length + 1 := by
      rw [ha]; simp
    simp only [attemptLoop]
    cases hbrk : (attemptStep p env i st).2
    · rw [if_neg (by simp)]
      obtain ⟨ext, hext, -⟩ := attemptLoop_attempts_ext p env rest (attemptStep p env i st).1
      rw [hext, List.length_append]
      omega
    · rw [if_pos rfl]
      omega

/-- A record that stops the loop is its last record. -/
theorem attemptLoop_stop_last (p : VersionParams) (env : AttemptEnv) :
    ∀ (rs : List Nat) (st : LoopState),
      (∀ (j : Nat) (r : AttemptRecord), st.attempts[j]? = some r → stopOf r = false) →
      ∀ (j : Nat) (r : AttemptRecord), (attemptLoop p env rs st).attempts[j]? = some r →
        stopOf r = true →
        (attemptLoop p env rs st).attempts.length = j + 1 := by
  intro rs
  induction rs with
  | nil =>
    intro st hall j r h hstop
    simp only [attemptLoop] at h
    rw [hall j r h] at hstop
    exact absurd hstop (by simp)
  | cons i rest ih =>
    intro st hall j r h hstop
    obtain ⟨rec, call, ha, hc, hb, htok, hf, hi⟩ := attemptStep_char p env i st
    have hstep_all : (attemptStep p env i st).2 = false →
        ∀ (j : Nat) (r : AttemptRecord), (attemptStep p env i st).1.attempts[j]? = some r →
        stopOf r = false := by
      intro hbf j r hj
      rw [ha] at hj
      by_cases hjlt : j < st.attempts.length
      · rw [List.getElem?_append, if_pos hjlt] at hj
        exact hall j r hj
      · by_cases hjeq : j = st.attempts.length
        · subst hjeq
          rw [List.getElem?_concat_length] at hj
          have : rec = r := by simpa using hj
          subst this
          rw [hb] at hbf
          exact hbf
        · rw [List.getElem?_eq_none (by simp; omega)] at hj
          exact absurd hj (by simp)
    simp only [attemptLoop] at h ⊢
    cases hbrk : (attemptStep p env i st).2
    · rw [hbrk] at h
      rw [if_neg (by simp)] at h ⊢
      exact ih _ (hstep_all hbrk) j r h hstop
    · rw [hbrk] at h
      rw [if_pos rfl] at h ⊢
      rw [ha] at h ⊢
      simp only [List.length_append, List.length_cons, List.length_nil]
      by_cases hjlt : j < st.attempts.length
      · rw [List.getElem?_append, if_pos hjlt] at h
        rw [hall j r h] at hstop
        exact absurd hstop (by simp)
      · by_cases hjeq : j = st.attempts.length
        · omega
        · rw [List.getElem?_eq_none (by simp; omega)] at h
          exact absurd h (by simp)

/-- A record that does not stop the loop, while iterations remain, is
followed by another record. -/
theorem attemptLoop_continue_next (p : VersionParams) (env : AttemptEnv) :
    ∀ (rs : List Nat) (st : LoopState),
      ∀ (j : Nat) (r : AttemptRecord), (attemptLoop p env rs st).attempts[j]? = some r →
        st.attempts.length ≤ j →
        stopOf r = false →
        j + 1 < st.attempts.length + rs.length →
        j + 1 < (attemptLoop p env rs st).attempts.length := by
  intro rs
  induction rs with
  | nil =>
    intro st j r h hge hns hlt
    simp only [attemptLoop] at h
    rw [List.getElem?_eq_none hge] at h
    exact absurd h (by simp)
  | cons i rest ih =>
    intro st j r h hge hns hlt
    obtain ⟨rec, call, ha, hc, hb, htok, hf, hi⟩ := attemptStep_char p env i st
    have hlen1 : (attemptStep p env i st).1.attempts.length =
        st.attempts.length + 1 := by rw [ha]; simp
    simp only [attemptLoop] at h ⊢
    cases hbrk : (attemptStep p env i st).2
    · rw [hbrk] at h
      rw [if_neg (by simp)] at h ⊢
      by_cases hjeq : j = st.attempts.length
      · subst hjeq
        have hne : rest ≠ [] := by
          intro he
          subst he
          simp only [List.length_cons, List.length_nil] at hlt
          omega
        have := attemptLoop_progress p env rest (attemptStep p env i st).1 hne
        omega
      · have hge' : (attemptStep p env i st).1.attempts.length ≤ j := by omega
        exact ih (attemptStep p env i st).1 j r h hge' hns (by
          simp only [List.length_cons] at hlt
          omega)
    · rw [hbrk] at h
      rw [if_pos rfl] at h ⊢
      rw [ha] at h
      by_cases hjeq : j = st.attempts.length
      · subst hjeq
        rw [List.getElem?_concat_length] at h
        have : rec = r := by simpa using h
        subst this
        rw [hb] at hbrk
        rw [hbrk] at hns
        exact absurd hns (by simp)
      · by_cases hjlt : j < st.attempts.length
        · omega
        · rw [List.getElem?_eq_none (by simp; omega)] at h
          exact absurd h (by simp)

/-! ## Lemmas about the version orchestrator and the session fold -/

/-- The finalization of `generate_version` only repackages the loop
state: the recorded attempts, calls, and the attempt count are those of
the loop in either branch. -/
theorem generate_version_parts (p : VersionParams) (env : AttemptEnv) :
    (generate_version p env).attempts =
      (attemptLoop p env (List.range MAX_ITERATIONS_PER_VERSION) ⟨[], none, 0, []⟩).attempts ∧
    (generate_version p env).calls =
      (attemptLoop p env (List.range MAX_ITERATIONS_PER_VERSION) ⟨[], none, 0, []⟩).calls ∧
    (generate_version p env).result.attempts =
      (attemptLoop p env (List.range MAX_ITERATIONS_PER_VERSION) ⟨[], none, 0, []⟩).attempts.length := by
  simp only [generate_version]
  cases (attemptLoop p env (List.range MAX_ITERATIONS_PER_VERSION) ⟨[], none, 0, []⟩).best_result <;>
    exact ⟨rfl, rfl, rfl⟩

/-- A failed version result carries a zero final score. -/
theorem generate_version_fail_score (p : VersionParams) (env : AttemptEnv)
    (h : (generate_version p env).result.success = false) :
    (generate_version p env).result.final_score = 0 := by
  simp only [generate_version] at h ⊢
  cases hb : (attemptLoop p env (List.range MAX_ITERATIONS_PER_VERSION) ⟨[], none, 0, []⟩).best_result
  · rfl
  · rw [hb] at h
    exact absurd h (by simp)

/-- The session fold yields one step per version ordinal. -/
theorem runVersions_length (inp sd : List Char) (e : SessionEnv) :
    ∀ (l : List Nat) (pimg ptok : Option (List Char)),
      (runVersions inp sd e l pimg ptok).length = l.length := by
  intro l
  induction l with
  | nil => intro pimg ptok; rfl
  | cons v vs ih =>
    intro pimg ptok
    simp only [runVersions]
    cases hsucc : (generate_version ⟨inp, v, sd, pimg, ptok⟩ (envFor e v)).result.success
    · rw [if_neg (by simp)]
      simp [ih]
    · rw [if_pos rfl]
      simp [ih]

/-- The head step of the session fold records exactly the accumulator
it was invoked with. -/
theorem runVersions_head (inp sd : List Char) (e : SessionEnv)
    (l : List Nat) (pimg ptok : Option (List Char)) (s : SessionStep)
    (h : (runVersions inp sd e l pimg ptok)[0]? = some s) :
    s.prev_image = pimg ∧ s.prev_token = ptok := by
  cases l with
  | nil => exact absurd h (by simp [runVersions])
  | cons v vs =>
    simp only [runVersions] at h
    cases hsucc : (generate_version ⟨inp, v, sd, pimg, ptok⟩ (envFor e v)).result.success
    · rw [if_neg (by simp [hsucc])] at h
      rw [List.getElem?_cons_zero] at h
      simp only [Option.some.injEq] at h
      subst h
      exact ⟨rfl, rfl⟩
    · rw [if_pos hsucc] at h
      rw [List.getElem?_cons_zero] at h
      simp only [Option.some.injEq] at h
      subst h
      exact ⟨rfl, rfl⟩

/-- Threading of the previous-image and continuity-token accumulator:
each step of the session fold sees the accumulator updated from the
preceding step only when that step succeeded, unchanged otherwise. -/
theorem runVersions_threading (inp sd : List Char) (e : SessionEnv) :
    ∀ (l : List Nat) (pimg ptok : Option (List Char)) (j : Nat)
      (s1 s2 : SessionStep),
      (runVersions inp sd e l pimg ptok)[j]? = some s1 →
      (runVersions inp sd e l pimg ptok)[j + 1]? = some s2 →
      (s2.prev_image =
        if s1.result.success then s1.result.image_path else s1.prev_image) ∧
      (s2.prev_token =
        if s1.result.success then s1.result.thought_signature else s1.prev_token) := by
  intro l
  induction l with
  | nil =>
    intro pimg ptok j s1 s2 h1 h2
    exact absurd h1 (by simp [runVersions])
  | cons v vs ih =>
    intro pimg ptok j s1 s2 h1 h2
    simp only [runVersions] at h1 h2
    cases hsucc : (generate_version ⟨inp, v, sd, pimg, ptok⟩ (envFor e v)).result.success
    · rw [if_neg (by simp [hsucc])] at h1 h2
      cases j with
      | zero =>
        rw [List.getElem?_cons_zero] at h1
        simp only [Option.some.injEq] at h1
        subst h1
        rw [List.getElem?_cons_succ] at h2
        obtain ⟨hi, ht⟩ := runVersions_head inp sd e vs pimg ptok s2 h2
        simp only [hsucc]
        exact ⟨by simp [hi], by simp [ht]⟩
      | succ j0 =>
        rw [List.getElem?_cons_succ] at h1 h2
        exact ih pimg ptok j0 s1 s2 h1 h2
    · rw [if_pos hsucc] at h1 h2
      cases j with
      | zero =>
        rw [List.getElem?_cons_zero] at h1
        simp only [Option.some.injEq] at h1
        subst h1
        rw [List.getElem?_cons_succ] at h2
        obtain ⟨hi, ht⟩ := runVersions_head inp sd e vs _ _ s2 h2
        simp only [hsucc]
        exact ⟨by simp [hi], by simp [ht]⟩
      | succ j0 =>
        rw [List.getElem?_cons_succ] at h1 h2
        exact ih _ _ j0 s1 s2 h1 h2

/-- Every step result of the session fold satisfies any property that
holds of every `generate_version` result. -/
theorem runVersions_result_pred (inp sd : List Char) (e : SessionEnv)
    (P : VersionResult → Prop)
    (hP : ∀ p env, P (generate_version p env).result) :
    ∀ (l : List Nat) (pimg ptok : Option (List Char)) (s : SessionStep),
      s ∈ runVersions inp sd e l pimg ptok → P s.result := by
  intro l
  induction l with
  | nil => intro pimg ptok s h; exact absurd h (List.not_mem_nil s)
  | cons v vs ih =>
    intro pimg ptok s h
    simp only [runVersions] at h
    cases hsucc : (generate_version ⟨inp, v, sd, pimg, ptok⟩ (envFor e v)).result.success
    · rw [if_neg (by simp [hsucc])] at h
      rcases List.mem_cons.mp h with h | h
      · subst h; exact hP _ _
      · exact ih _ _ s h
    · rw [if_pos hsucc] at h
      rcases List.mem_cons.mp h with h | h
      · subst h; exact hP _ _
      · exact ih _ _ s h

/-! ## Lemmas about the rounding of the session average -/

theorem pyRoundInt_intCast (n : ℤ) : pyRoundInt (n : ℚ) = n := by
  unfold pyRoundInt
  rw [Int.floor_intCast, sub_self]
  rw [if_pos (by norm_num)]

/-- A sum of integer scores divided by five has exactly one decimal
digit, so Python `round(x, 1)` returns it unchanged. -/
theorem pyRound1_div_five (s : Nat) : pyRound1 ((s : ℚ) / 5) = (s : ℚ) / 5 := by
  unfold pyRound1
  have h10 : (10 : ℚ) * ((s : ℚ) / 5) = ((2 * (s : ℤ) : ℤ) : ℚ) := by
    push_cast
    ring
  rw [h10, pyRoundInt_intCast]
  push_cast
  ring

/-- Reduction of `generate_version` when no best attempt exists. -/
theorem generate_version_eq_none (p : VersionParams) (env : AttemptEnv)
    (hb : (attemptLoop p env (List.range MAX_ITERATIONS_PER_VERSION)
        ⟨[], none, 0, []⟩).best_result = none) :
    generate_version p env =
      ⟨⟨false, none, none,
          (attemptLoop p env (List.range MAX_ITERATIONS_PER_VERSION)
            ⟨[], none, 0, []⟩).attempts.length, 0, false⟩,
        (attemptLoop p env (List.range MAX_ITERATIONS_PER_VERSION)
          ⟨[], none, 0, []⟩).attempts,
        (attemptLoop p env (List.range MAX_ITERATIONS_PER_VERSION)
          ⟨[], none, 0, []⟩).calls⟩ := by
  simp only [generate_version]
  rw [hb]

/-- Reduction of `generate_version` when a best attempt exists. -/
theorem generate_version_eq_some (p : VersionParams) (env : AttemptEnv)
    (b0 : AttemptRecord)
    (hb : (attemptLoop p env (List.range MAX_ITERATIONS_PER_VERSION)
        ⟨[], none, 0, []⟩).best_result = some b0) :
    generate_version p env =
      ⟨⟨true, some (finalPath p), b0.thought_signature,
          (attemptLoop p env (List.range MAX_ITERATIONS_PER_VERSION)
            ⟨[], none, 0, []⟩).attempts.length,
          (attemptLoop p env (List.range MAX_ITERATIONS_PER_VERSION)
            ⟨[], none, 0, []⟩).best_score, b0.passed⟩,
        (attemptLoop p env (List.range MAX_ITERATIONS_PER_VERSION)
          ⟨[], none, 0, []⟩).attempts,
        (attemptLoop p env (List.range MAX_ITERATIONS_PER_VERSION)
          ⟨[], none, 0, []⟩).calls⟩ := by
  simp only [generate_version]
  rw [hb]

/-- The loop invariant holds of the initial state. -/
theorem loopInv_init : LoopInv ⟨[], none, 0, []⟩ :=
  ⟨rfl, fun _ => rfl, fun h => absurd h (Nat.lt_irrefl 0),
    fun r hr => absurd hr (List.not_mem_nil r),
    fun r hr => absurd hr (List.not_mem_nil r)⟩

/-! ## Concrete scenario data used by witnesses and counterexamples -/

def inputPathW : List Char := "input.png".data
def sessionDirW : List Char := "out".data

/-- Version 2 with an incoming continuity token `T0`; the generation
port returns token `T1` on every attempt; every critique fails with
score 5, so all three attempts run. -/
def paramsTok : VersionParams :=
  ⟨inputPathW, 2, sessionDirW, some "prev.png".data, some "T0".data⟩

def envTok : AttemptEnv :=
  ⟨fun _ => ⟨true, some "T1".data, []⟩, fun _ => ⟨false, 5, [], []⟩⟩

/-- Version 1 with no previous state. -/
def paramsOne : VersionParams := ⟨inputPathW, 1, sessionDirW, none, none⟩

/-- Every generation produces an image; every critique scores 0. -/
def envZero : AttemptEnv :=
  ⟨fun _ => ⟨true, none, []⟩, fun _ => ⟨false, 0, [], []⟩⟩

/-- The first attempt generates and passes with score 8. -/
def envFirstPass : AttemptEnv :=
  ⟨fun _ => ⟨true, none, []⟩, fun _ => ⟨true, 8, [], []⟩⟩

/-- Session environment: every version passes first try with score 8. -/
def sessionPass8 : SessionEnv :=
  ⟨fun _ _ => ⟨true, some "tok".data, []⟩, fun _ _ => ⟨true, 8, [], []⟩⟩

/-- Session environment: generation always fails for version 2 and
succeeds elsewhere; critiques pass with score 8. -/
def sessionV2Fails : SessionEnv :=
  ⟨fun v _ => ⟨decide (v ≠ 2), some "tok".data, "boom".data⟩,
    fun _ _ => ⟨true, 8, [], []⟩⟩

def dummyStep : SessionStep := ⟨0, [], none, none, ⟨false, none, none, 0, 0, false⟩⟩

def stepsW : List SessionStep :=
  (run_full_pipeline 3 inputPathW sessionDirW sessionV2Fails).versions

def stepW1 : SessionStep := stepsW.getD 1 dummyStep
def stepW2 : SessionStep := stepsW.getD 2 dummyStep

/-- The 200-status analysis response whose single candidate has one
part without a `text` key (an inline-data part). -/
def responseNoText : ResponseData := ⟨[⟨[⟨none⟩]⟩]⟩

theorem pyRound1_intCast (n : ℤ) : pyRound1 ((n : ℚ)) = (n : ℚ) := by
  unfold pyRound1
  have h10 : (10 : ℚ) * (n : ℚ) = ((10 * n : ℤ) : ℚ) := by push_cast; ring
  rw [h10, pyRoundInt_intCast]
  push_cast
  ring

/-! ## The claims -/

/-- C1: for every non-null analysis text, the verdict has pass = true
exactly when the uppercased text has a first occurrence of the PASS
marker and no FAIL marker occurrence lies entirely before it (the
case-insensitive scan of critique.py line 54). -/
theorem claim_C1_pass_iff (analysis : List Char) :
    passedOf analysis = true ↔ SpecVerdictPass analysis :=
  passedOf_iff_specVerdictPass analysis

/-- C2: the Response Evaluator is not total.  On the reachable input
with `success = True` and `analysis = None` (a 200 analysis response
with no text part, see C10), `critique_image` evaluates
`analysis.upper()` on `None` and raises `AttributeError` instead of
returning the default-filled verdict the spec requires. -/
theorem claim_C2_crash :
    critique_image ⟨true, none, none⟩ = Except.error PyError.attributeError := rfl

/-- C3: the attempt loop executes at most `MAX_ITERATIONS_PER_VERSION`
(3) iterations: the version result's attempt count, the number of
recorded attempts, and the number of generation calls are all bounded
by 3, for every environment behavior. -/
theorem claim_C3_bounded (p : VersionParams) (env : AttemptEnv) :
    (generate_version p env).result.attempts ≤ MAX_ITERATIONS_PER_VERSION ∧
    (generate_version p env).attempts.length ≤ MAX_ITERATIONS_PER_VERSION ∧
    (generate_version p env).calls.length ≤ MAX_ITERATIONS_PER_VERSION := by
  obtain ⟨ha, hc, hn⟩ := generate_version_parts p env
  obtain ⟨ext, hext, hlen⟩ :=
    attemptLoop_attempts_ext p env (List.range MAX_ITERATIONS_PER_VERSION) ⟨[], none, 0, []⟩
  obtain ⟨extc, hextc, hlenc⟩ :=
    attemptLoop_calls_ext p env (List.range MAX_ITERATIONS_PER_VERSION) ⟨[], none, 0, []⟩
  have h1 : (attemptLoop p env (List.range MAX_ITERATIONS_PER_VERSION)
      ⟨[], none, 0, []⟩).attempts.length ≤ MAX_ITERATIONS_PER_VERSION := by
    rw [hext]
    simpa using hlen
  have h2 : (attemptLoop p env (List.range MAX_ITERATIONS_PER_VERSION)
      ⟨[], none, 0, []⟩).calls.length ≤ MAX_ITERATIONS_PER_VERSION := by
    rw [hextc]
    simpa using hlenc
  refine ⟨?_, ?_, ?_⟩
  · rw [hn]; exact h1
  · rw [ha]; exact h1
  · rw [hc]; exact h2

/-- C4: if the j-th executed attempt has a verdict with pass = true and
score at least `MIN_SCORE_TO_PASS` (7), the loop breaks immediately (no
attempt follows it); if either condition fails and the bound is not yet
reached, the next attempt executes. -/
theorem claim_C4_stop_or_continue (p : VersionParams) (env : AttemptEnv)
    (j : Nat) (r : AttemptRecord)
    (hj : (generate_version p env).attempts[j]? = some r) :
    ((r.success = true ∧ r.passed = true ∧ MIN_SCORE_TO_PASS ≤ r.score) →
      (generate_version p env).attempts.length = j + 1) ∧
    (¬(r.success = true ∧ r.passed = true ∧ MIN_SCORE_TO_PASS ≤ r.score) →
      j + 1 < MAX_ITERATIONS_PER_VERSION →
      j + 1 < (generate_version p env).attempts.length) := by
  obtain ⟨ha, -, -⟩ := generate_version_parts p env
  rw [ha] at hj ⊢
  constructor
  · intro hcond
    have hstop : stopOf r = true := by
      simp [stopOf, hcond.1, hcond.2.1, hcond.2.2]
    exact attemptLoop_stop_last p env _ _
      (by intro j r h; exact absurd h (by simp)) j r hj hstop
  · intro hcond hlt
    have hstop : stopOf r = false := by
      cases hs : stopOf r
      · rfl
      · exfalso
        apply hcond
        have hs2 : (r.success = true ∧ r.passed = true) ∧ MIN_SCORE_TO_PASS ≤ r.score := by
          simpa [stopOf, Bool.and_eq_true, decide_eq_true_eq] using hs
        exact ⟨hs2.1.1, hs2.1.2, hs2.2⟩
    exact attemptLoop_continue_next p env _ _ j r hj (by simp) hstop
      (by simpa [MAX_ITERATIONS_PER_VERSION] using hlt)

theorem claim_C4_witness :
    (generate_version paramsOne envFirstPass).attempts.length = 0 + 1 := by
  have h := claim_C4_stop_or_continue paramsOne envFirstPass 0
    (succRecord paramsOne 0 (envFirstPass.gen 0) (envFirstPass.crit 0)) (by decide)
  exact h.1 (by decide)

/-- C5: in the session fold, each step sees the previous-image and
continuity-token accumulator updated from the preceding step only when
that step succeeded; when it failed, the accumulator is unchanged. -/
theorem claim_C5_state_threading (numVersions : Nat) (inp sd : List Char)
    (e : SessionEnv) (j : Nat) (s1 s2 : SessionStep)
    (h1 : (run_full_pipeline numVersions inp sd e).versions[j]? = some s1)
    (h2 : (run_full_pipeline numVersions inp sd e).versions[j + 1]? = some s2) :
    (s2.prev_image =
      if s1.result.success then s1.result.image_path else s1.prev_image) ∧
    (s2.prev_token =
      if s1.result.success then s1.result.thought_signature else s1.prev_token) := by
  have hv : (run_full_pipeline numVersions inp sd e).versions =
      runVersions inp sd e (List.range' 1 numVersions) none none := rfl
  rw [hv] at h1 h2
  exact runVersions_threading inp sd e _ none none j s1 s2 h1 h2

theorem claim_C5_witness :
    stepW2.prev_image = some (finalPath ⟨inputPathW, 1, sessionDirW, none, none⟩) ∧
    stepW1.result.success = false := by
  have h := claim_C5_state_threading 3 inputPathW sessionDirW sessionV2Fails 1
    stepW1 stepW2 (by decide) (by decide)
  refine ⟨?_, by decide⟩
  rw [h.1]
  decide

/-- C6 counterexample: with incoming token `T0`, the first attempt
returns token `T1` and does not pass, so a retry occurs; the retry
generation call still passes `T0`, not the `T1` returned by the
previous attempt, falsifying attempt-to-attempt token threading. -/
theorem claim_C6_counterexample :
    ((generate_version paramsTok envTok).attempts[0]?.map
      (fun r => r.thought_signature)) = some (some ("T1".data)) ∧
    ((generate_version paramsTok envTok).calls[1]?.map
      (fun c => c.previous_thought_signature)) = some (some ("T0".data)) ∧
    some ("T0".data) ≠ some ("T1".data) := by decide

/-- C6 (amended): within a single version, every generation call uses
the version-level continuity token (the one received from the previous
version) unchanged; the token is never updated between attempts. -/
theorem claim_C6_token_constant (p : VersionParams) (env : AttemptEnv)
    (c : GenCall) (hc : c ∈ (generate_version p env).calls) :
    c.previous_thought_signature = p.thought_signature := by
  obtain ⟨-, hcalls, -⟩ := generate_version_parts p env
  rw [hcalls] at hc
  exact attemptLoop_calls_token p env _ _
    (by intro c h; exact absurd h (List.not_mem_nil c)) c hc

theorem claim_C6_witness :
    (stepCall paramsTok 0 ⟨[], none, 0, []⟩).previous_thought_signature =
      some ("T0".data) :=
  claim_C6_token_constant paramsTok envTok _ (by decide)

/-- C7 counterexample: every attempt generates an image but scores 0;
the best tracker (strict improvement over an initial 0) never fires, so
the version result is marked failed with no image although images were
produced on all three attempts. -/
theorem claim_C7_counterexample :
    ((generate_version paramsOne envZero).attempts.all
      (fun r => r.success && r.image_path.isSome)) = true ∧
    (generate_version paramsOne envZero).attempts.length = 3 ∧
    (generate_version paramsOne envZero).result.success = false ∧
    (generate_version paramsOne envZero).result.image_path = none := by decide

/-- C7 (amended): the version result is successful exactly when some
attempt produced an image with a positive score; in that case it carries
the canonical final image path, the best (first maximal) attempt's
token, pass flag and score, and the total attempt count; otherwise it is
the failed result with no image and score 0 (even if some attempt
produced an image scoring 0). -/
theorem claim_C7_finalization (p : VersionParams) (env : AttemptEnv) :
    ((generate_version p env).result.success = true ↔
      ∃ r ∈ (generate_version p env).attempts, r.success = true ∧ 0 < r.score) ∧
    (generate_version p env).result.attempts =
      (generate_version p env).attempts.length ∧
    ((generate_version p env).result.success = false →
      (generate_version p env).result =
        ⟨false, none, none, (generate_version p env).attempts.length, 0, false⟩) ∧
    (∀ b, (generate_version p env).attempts.find?
        (fun r => r.score == maxScore (generate_version p env).attempts) = some b →
      0 < maxScore (generate_version p env).attempts →
      (generate_version p env).result =
        ⟨true, some (finalPath p), b.thought_signature,
          (generate_version p env).attempts.length,
          maxScore (generate_version p env).attempts, b.passed⟩) := by
  obtain ⟨hmax, hzero, hpos, hfail, himg⟩ :=
    attemptLoop_inv p env (List.range MAX_ITERATIONS_PER_VERSION)
      ⟨[], none, 0, []⟩ loopInv_init
  cases hb : (attemptLoop p env (List.range MAX_ITERATIONS_PER_VERSION)
      ⟨[], none, 0, []⟩).best_result with
  | none =>
    have hres := generate_version_eq_none p env hb
    refine ⟨?_, ?_, ?_, ?_⟩
    · rw [hres]
      constructor
      · intro h
        exact absurd h (by simp)
      · rintro ⟨r, hr, hsucc, hscore⟩
        have hr2 : r ∈ (attemptLoop p env (List.range MAX_ITERATIONS_PER_VERSION)
            ⟨[], none, 0, []⟩).attempts := hr
        have hle := le_maxScore_of_mem hr2
        have hp : 0 < (attemptLoop p env (List.range MAX_ITERATIONS_PER_VERSION)
            ⟨[], none, 0, []⟩).best_score := by
          rw [hmax]
          omega
        obtain ⟨b, hbsome, -⟩ := hpos hp
        rw [hb] at hbsome
        exact absurd hbsome (by simp)
    · rw [hres]
    · rw [hres]
      intro _
      rfl
    · rw [hres]
      intro b hfind hposmax
      have hposmax2 : 0 < maxScore (attemptLoop p env
          (List.range MAX_ITERATIONS_PER_VERSION) ⟨[], none, 0, []⟩).attempts := hposmax
      have hp : 0 < (attemptLoop p env (List.range MAX_ITERATIONS_PER_VERSION)
          ⟨[], none, 0, []⟩).best_score := by
        rw [hmax]
        exact hposmax2
      obtain ⟨b1, hbsome, -⟩ := hpos hp
      rw [hb] at hbsome
      exact absurd hbsome (by simp)
  | some b0 =>
    have hres := generate_version_eq_some p env b0 hb
    have hposbs : 0 < (attemptLoop p env (List.range MAX_ITERATIONS_PER_VERSION)
        ⟨[], none, 0, []⟩).best_score := by
      rcases Nat.eq_zero_or_pos ((attemptLoop p env
          (List.range MAX_ITERATIONS_PER_VERSION) ⟨[], none, 0, []⟩).best_score) with h0 | h0
      · have hn := hzero h0
        rw [hb] at hn
        exact absurd hn (by simp)
      · exact h0
    obtain ⟨b1, hb1some, hb1find⟩ := hpos hposbs
    rw [hb] at hb1some
    have heq : b0 = b1 := by injection hb1some
    rw [heq] at hres
    have hmem := List.mem_of_find?_eq_some hb1find
    have hpred := List.find?_some hb1find
    have hscore : b1.score = (attemptLoop p env
        (List.range MAX_ITERATIONS_PER_VERSION) ⟨[], none, 0, []⟩).best_score := by
      simpa using hpred
    refine ⟨?_, ?_, ?_, ?_⟩
    · rw [hres]
      constructor
      · intro _
        refine ⟨b1, hmem, ?_, by omega⟩
        cases hsb : b1.success
        · have h0 := hfail b1 hmem hsb
          omega
        · rfl
      · intro _
        rfl
    · rw [hres]
    · rw [hres]
      intro hfalse
      exact absurd hfalse (by simp)
    · rw [hres]
      intro b hfind hposmax
      have hfind2 : (attemptLoop p env (List.range MAX_ITERATIONS_PER_VERSION)
          ⟨[], none, 0, []⟩).attempts.find?
          (fun r => r.score == maxScore (attemptLoop p env
            (List.range MAX_ITERATIONS_PER_VERSION) ⟨[], none, 0, []⟩).attempts) = some b := hfind
      rw [← hmax] at hfind2
      rw [hb1find] at hfind2
      have hbb : b1 = b := by injection hfind2
      subst hbb
      show (⟨true, some (finalPath p), b1.thought_signature,
          (attemptLoop p env (List.range MAX_ITERATIONS_PER_VERSION)
            ⟨[], none, 0, []⟩).attempts.length,
          (attemptLoop p env (List.range MAX_ITERATIONS_PER_VERSION)
            ⟨[], none, 0, []⟩).best_score, b1.passed⟩ : VersionResult) =
        ⟨true, some (finalPath p), b1.thought_signature,
          (attemptLoop p env (List.range MAX_ITERATIONS_PER_VERSION)
            ⟨[], none, 0, []⟩).attempts.length,
          maxScore (attemptLoop p env (List.range MAX_ITERATIONS_PER_VERSION)
            ⟨[], none, 0, []⟩).attempts, b1.passed⟩
      rw [hmax]

theorem claim_C7_witness :
    (generate_version paramsOne envFirstPass).result =
      ⟨true, some (finalPath paramsOne), none, 1, 8, true⟩ := by
  have h := (claim_C7_finalization paramsOne envFirstPass).2.2.2
    (succRecord paramsOne 0 (envFirstPass.gen 0) (envFirstPass.crit 0))
    (by decide) (by decide)
  rw [h]
  decide

/-- C8 counterexample: the labelled value 12 lies outside the 1-10
scale and is not the default 5, yet the evaluator returns it as the
score: there is no fallback for out-of-range labelled values. -/
theorem claim_C8_counterexample :
    overall_score_of ("OVERALL SCORE: 12".data) = 12 ∧
    ¬(overall_score_of ("OVERALL SCORE: 12".data) = 5 ∨
      (1 ≤ overall_score_of ("OVERALL SCORE: 12".data) ∧
        overall_score_of ("OVERALL SCORE: 12".data) ≤ 10)) := by decide

/-- C8 (amended): the score is the default 5 whenever the uppercased
text lacks the `OVERALL SCORE` label or the score regex finds no match;
when the label is present and the regex parses an integer, that integer
is returned unchanged, with no restriction to the 1-10 scale. -/
theorem claim_C8_score_policy (analysis : List Char) :
    (containsSub OVERALL_SCORE_LABEL (upperStr analysis) = false →
      overall_score_of analysis = 5) ∧
    (searchScore analysis = none → overall_score_of analysis = 5) ∧
    (∀ n, containsSub OVERALL_SCORE_LABEL (upperStr analysis) = true →
      searchScore analysis = some n → overall_score_of analysis = n) := by
  refine ⟨?_, ?_, ?_⟩
  · intro h
    simp [overall_score_of, h]
  · intro h
    cases hg : containsSub OVERALL_SCORE_LABEL (upperStr analysis)
    · simp [overall_score_of, hg]
    · simp [overall_score_of, hg, h]
  · intro n hg hs
    simp [overall_score_of, hg, hs]

theorem claim_C8_witness : overall_score_of ("no label here".data) = 5 :=
  (claim_C8_score_policy _).1 (by decide)

theorem run_full_pipeline_versions (n : Nat) (inp sd : List Char) (e : SessionEnv) :
    (run_full_pipeline n inp sd e).versions =
      runVersions inp sd e (List.range' 1 n) none none := rfl

theorem run_full_pipeline_average (n : Nat) (inp sd : List Char) (e : SessionEnv) :
    (run_full_pipeline n inp sd e).summary.average_score =
      pyRound1 ((((run_full_pipeline n inp sd e).versions.map
        (fun s => s.result.final_score)).sum : ℚ) / ((n : Nat) : ℚ)) := rfl

theorem pyRound1_div_numVersions (s : Nat) :
    pyRound1 ((s : ℚ) / ((NUM_VERSIONS : Nat) : ℚ)) =
      (s : ℚ) / ((NUM_VERSIONS : Nat) : ℚ) := by
  have h5 : ((NUM_VERSIONS : Nat) : ℚ) = (5 : ℚ) := by norm_num [NUM_VERSIONS]
  rw [h5]
  exact pyRound1_div_five s

theorem sum_cast_scores (l : List SessionStep) :
    (l.map (fun s => ((s.result.final_score : Nat) : ℚ))).sum =
      (((l.map (fun s => s.result.final_score)).sum : Nat) : ℚ) := by
  rw [Nat.cast_list_sum, List.map_map]
  rfl

theorem pyRound1_scores (l : List SessionStep) :
    pyRound1 ((l.map (fun s => ((s.result.final_score : Nat) : ℚ))).sum /
        ((NUM_VERSIONS : Nat) : ℚ)) =
      (l.map (fun s => ((s.result.final_score : Nat) : ℚ))).sum /
        ((NUM_VERSIONS : Nat) : ℚ) := by
  rw [sum_cast_scores]
  exact pyRound1_div_numVersions _

/-- C9: for every environment, the persisted session average equals the
sum of the per-version final scores divided by `NUM_VERSIONS` (the
arithmetic mean; failed versions carry score 0, and with five versions
the mean has one decimal digit, so Python rounding returns it exactly);
and the 3-version all-pass-at-8 scenario yields the summary
(3, 3, 8.0, 3).  Floats are idealized as exact rationals. -/
theorem claim_C9_average :
    (∀ (inp sd : List Char) (e : SessionEnv),
      (run_full_pipeline NUM_VERSIONS inp sd e).summary.average_score =
        (((run_full_pipeline NUM_VERSIONS inp sd e).versions.map
          (fun s => s.result.final_score)).sum : ℚ) / ((NUM_VERSIONS : Nat) : ℚ)) ∧
    (∀ (inp sd : List Char) (e : SessionEnv),
      (run_full_pipeline NUM_VERSIONS inp sd e).versions.map
          (fun s => if s.result.success then s.result.final_score else 0) =
        (run_full_pipeline NUM_VERSIONS inp sd e).versions.map
          (fun s => s.result.final_score)) ∧
    (∀ (inp sd : List Char) (e : SessionEnv),
      (run_full_pipeline NUM_VERSIONS inp sd e).versions.length = NUM_VERSIONS) ∧
    (run_full_pipeline 3 inputPathW sessionDirW sessionPass8).summary =
      ⟨3, 3, 8, 3⟩ := by
  refine ⟨?_, ?_, ?_, ?_⟩
  · intro inp sd e
    exact (run_full_pipeline_average NUM_VERSIONS inp sd e).trans
      (pyRound1_scores ((run_full_pipeline NUM_VERSIONS inp sd e).versions))
  · intro inp sd e
    apply List.map_congr_left
    intro s hs
    rw [run_full_pipeline_versions] at hs
    cases hsucc : s.result.success
    · have h0 := runVersions_result_pred inp sd e
        (fun r => r.success = false → r.final_score = 0)
        (fun p env h => generate_version_fail_score p env h)
        _ none none s hs hsucc
      simp [hsucc, h0]
    · simp [hsucc]
  · intro inp sd e
    rw [run_full_pipeline_versions, runVersions_length]
    simp
  · have hsum : ((run_full_pipeline 3 inputPathW sessionDirW sessionPass8).versions.map
        (fun s => s.result.final_score)).sum = 24 := by decide
    have havg : (run_full_pipeline 3 inputPathW sessionDirW
        sessionPass8).summary.average_score = (8 : ℚ) := by
      rw [run_full_pipeline_average 3 inputPathW sessionDirW sessionPass8]
      rw [sum_cast_scores, hsum]
      have h24 : (((24 : Nat) : ℚ)) / (((3 : Nat)) : ℚ) = ((8 : ℤ) : ℚ) := by norm_num
      rw [h24, pyRound1_intCast]
      norm_num
    have hvp : (run_full_pipeline 3 inputPathW sessionDirW
        sessionPass8).summary.versions_passed = 3 := by decide
    have hvt : (run_full_pipeline 3 inputPathW sessionDirW
        sessionPass8).summary.versions_total = 3 := by decide
    have hta : (run_full_pipeline 3 inputPathW sessionDirW
        sessionPass8).summary.total_attempts = 3 := by decide
    show (⟨(run_full_pipeline 3 inputPathW sessionDirW sessionPass8).summary.versions_passed,
        (run_full_pipeline 3 inputPathW sessionDirW sessionPass8).summary.versions_total,
        (run_full_pipeline 3 inputPathW sessionDirW sessionPass8).summary.average_score,
        (run_full_pipeline 3 inputPathW sessionDirW sessionPass8).summary.total_attempts⟩ :
      SessionSummary) = ⟨3, 3, 8, 3⟩
    rw [hvp, hvt, hta, havg]

/-- C10: a 200-status analysis response whose candidate contains no
text part yields `success = True` with `analysis = None`: success does
not imply a non-null analysis, so the caller must handle a null
analysis on the success path. -/
theorem claim_C10_success_with_null_analysis :
    analyze_image (HttpOutcome.response 200 responseNoText []) =
      ⟨true, none, none⟩ := rfl

end PaintingAssistant
